import Mathlib

/-!
Verification of the durabledict library (a versioned cache over durable
storage) against its specification.  The Python sources are shallowly
embedded: Python objects are modelled by the inductive type `Value`,
Python exceptions by `Except PyErr`, and each class method by an
executable Lean function over an explicit state type.

Layout:
* `Value`, `PyErr` -- the dynamic value and exception model.
* pickle/base64 and JSON codec models with machine-checked round-trips.
* `EncoderI` and the three encoders of durabledict/encoding.py.
* `dEncode`/`dDecode` -- DurableDict._encode and _decode (base.py).
* `cacheExpired`, `syncWith`, and the DurableDict operations (base.py),
  generic over a storage `Backend`.
* `PersistedDict.get` of the legacy modeldict/base.py (`pdGet`).
* Embeddings of RedisDict (durabledict/redis.py), MemoryDict
  (modeldict/memory.py) and the ModelDict version-counter recovery
  (durabledict/models.py).
* One theorem per specification claim.
-/

/-- Model of a dynamic (Python) value: None, bool, int, text string,
byte string, and (nested) list.  This covers every value class the
specification's claims mention. -/
inductive Value : Type where
  | vnone : Value
  | vbool : Bool → Value
  | vint : Int → Value
  | vstr : String → Value
  | vbytes : List Nat → Value
  | vlist : List Value → Value

/-- Model of the Python exceptions that the embedded code distinguishes:
`KeyError`, `ValueError`, and the two normalized codec errors
`EncodingError`/`DecodingError` of durabledict/encoding.py. -/
inductive PyErr : Type where
  | keyError : PyErr
  | valueError : PyErr
  | encodingError : PyErr
  | decodingError : PyErr
  deriving DecidableEq

/-- Python truthiness of a `Value` (`bool(v)`). -/
def pyTruthy : Value → Bool
  | .vnone => false
  | .vbool b => b
  | .vint n => n != 0
  | .vstr s => !s.isEmpty
  | .vbytes bs => !bs.isEmpty
  | .vlist l => !l.isEmpty

mutual

/-- Model of `pickle.dumps(data, HIGHEST_PROTOCOL)` composed with
`base64.encodestring` (the body of `PickleEncoding.encoder`,
durabledict/encoding.py lines 59-62).  The stdlib serializer is modelled
as an injective tagged byte encoding; the base64 layer is a bijection on
byte strings and is absorbed into the model, which preserves exactly the
round-trip behaviour the claims are about. -/
def pickleDumps : Value → List Nat
  | .vnone => [0]
  | .vbool b => [1, if b then 1 else 0]
  | .vint n => [2, if n < 0 then 1 else 0, n.natAbs]
  | .vstr s => 3 :: s.length :: (s.data.map Char.toNat)
  | .vbytes bs => 4 :: bs.length :: bs
  | .vlist l => 5 :: l.length :: pickleDumpsList l

def pickleDumpsList : List Value → List Nat
  | [] => []
  | v :: vs => pickleDumps v ++ pickleDumpsList vs

end

def chunk : Nat → List Nat → Option (List Nat × List Nat)
  | 0, rest => some ([], rest)
  | _ + 1, [] => none
  | n + 1, c :: rest => (chunk n rest).map fun p => (c :: p.1, p.2)

mutual

def parseVal : Nat → List Nat → Option (Value × List Nat)
  | 0, _ => none
  | _ + 1, 0 :: rest => some (.vnone, rest)
  | _ + 1, 1 :: 1 :: rest => some (.vbool true, rest)
  | _ + 1, 1 :: 0 :: rest => some (.vbool false, rest)
  | _ + 1, 2 :: 1 :: m :: rest => some (.vint (-(m : Int)), rest)
  | _ + 1, 2 :: 0 :: m :: rest => some (.vint (m : Int), rest)
  | _ + 1, 3 :: len :: rest =>
      (chunk len rest).map fun p => (.vstr (String.mk (p.1.map Char.ofNat)), p.2)
  | _ + 1, 4 :: len :: rest =>
      (chunk len rest).map fun p => (.vbytes p.1, p.2)
  | fuel + 1, 5 :: len :: rest =>
      (parseValList fuel len rest).map fun p => (.vlist p.1, p.2)
  | _ + 1, _ => none

def parseValList : Nat → Nat → List Nat → Option (List Value × List Nat)
  | _, 0, rest => some ([], rest)
  | 0, _ + 1, _ => none
  | fuel + 1, n + 1, rest =>
      (parseVal (fuel + 1) rest).bind fun p =>
        (parseValList fuel n p.2).map fun q => (p.1 :: q.1, q.2)

end

mutual

def sizeV : Value → Nat
  | .vlist l => 1 + sizeL l
  | _ => 1

def sizeL : List Value → Nat
  | [] => 0
  | v :: vs => sizeV v + sizeL vs

end

theorem chunk_append (bs rest : List Nat) : chunk bs.length (bs ++ rest) = some (bs, rest) := by
  induction bs with
  | nil => simp [chunk]
  | cons c cs ih => simp [chunk, ih]

theorem one_le_sizeV (v : Value) : 1 ≤ sizeV v := by
  cases v <;> simp [sizeV]

mutual

theorem parseVal_dumps :
    ∀ (v : Value) (fuel : Nat) (rest : List Nat), sizeV v ≤ fuel →
      parseVal fuel (pickleDumps v ++ rest) = some (v, rest)
  | v, 0, _, h => absurd h (by have := one_le_sizeV v; omega)
  | .vnone, _ + 1, rest, _ => by simp [pickleDumps, parseVal]
  | .vbool b, _ + 1, rest, _ => by cases b <;> simp [pickleDumps, parseVal]
  | .vint n, _ + 1, rest, _ => by
      by_cases h : n < 0
      · simp [pickleDumps, if_pos h, parseVal]
        rw [abs_of_neg h, neg_neg]
      · simp [pickleDumps, if_neg h, parseVal]
        exact le_of_not_lt h
  | .vstr s, _ + 1, rest, _ => by
      obtain ⟨sd⟩ := s
      have hlen : (String.mk sd).length = (sd.map Char.toNat).length := by
        simp [String.length]
      simp only [pickleDumps, hlen, List.cons_append, parseVal]
      rw [chunk_append]
      have hmap : sd.map (Char.ofNat ∘ Char.toNat) = sd := by
        simp [Function.comp_def, Char.ofNat_toNat]
      simp [List.map_map, hmap]
  | .vbytes bs, _ + 1, rest, _ => by
      simp only [pickleDumps, List.cons_append, parseVal]
      rw [chunk_append]
      rfl
  | .vlist l, fuel + 1, rest, h => by
      have hl : sizeL l ≤ fuel := by simp [sizeV] at h; omega
      simp only [pickleDumps, List.cons_append, parseVal, List.append_assoc]
      rw [parseValList_dumps l fuel rest hl]
      rfl

theorem parseValList_dumps :
    ∀ (l : List Value) (fuel : Nat) (rest : List Nat), sizeL l ≤ fuel →
      parseValList fuel l.length (pickleDumpsList l ++ rest) = some (l, rest)
  | [], fuel, rest, _ => by simp [pickleDumpsList, parseValList]
  | v :: vs, fuel, rest, h => by
      have h1 : 1 ≤ sizeV v := one_le_sizeV v
      have hge : sizeV v + sizeL vs ≤ fuel := by simpa [sizeL] using h
      obtain ⟨f, rfl⟩ : ∃ f, fuel = f + 1 := ⟨fuel - 1, by omega⟩
      simp only [pickleDumpsList, List.length_cons, parseValList, List.append_assoc]
      rw [parseVal_dumps v (f + 1) (pickleDumpsList vs ++ rest) (by omega)]
      simp only [Option.some_bind]
      rw [parseValList_dumps vs f rest (by omega)]
      rfl

end

def pickleLoads (bs : List Nat) : Option Value :=
  match parseVal (bs.length + 1) bs with
  | some (v, []) => some v
  | _ => none

mutual

theorem sizeV_le_length_dumps :
    ∀ v : Value, sizeV v ≤ (pickleDumps v).length
  | .vnone => by simp [pickleDumps, sizeV]
  | .vbool b => by simp [pickleDumps, sizeV]
  | .vint n => by simp [pickleDumps, sizeV]
  | .vstr s => by simp [pickleDumps, sizeV]
  | .vbytes bs => by simp [pickleDumps, sizeV]
  | .vlist l => by
      have := sizeL_le_length_dumpsList l
      simp only [pickleDumps, sizeV, List.length_cons]
      omega

theorem sizeL_le_length_dumpsList :
    ∀ l : List Value, sizeL l ≤ (pickleDumpsList l).length
  | [] => by simp [pickleDumpsList, sizeL]
  | v :: vs => by
      have h1 := sizeV_le_length_dumps v
      have h2 := sizeL_le_length_dumpsList vs
      simp only [pickleDumpsList, sizeL, List.length_append]
      omega

end

theorem pickleLoads_dumps (v : Value) : pickleLoads (pickleDumps v) = some v := by
  unfold pickleLoads
  have h : parseVal ((pickleDumps v).length + 1) (pickleDumps v ++ []) = some (v, []) :=
    parseVal_dumps v _ [] (le_trans (sizeV_le_length_dumps v) (by omega))
  rw [List.append_nil] at h
  rw [h]

def digitChar : Nat → Char
  | 0 => '0' | 1 => '1' | 2 => '2' | 3 => '3' | 4 => '4'
  | 5 => '5' | 6 => '6' | 7 => '7' | 8 => '8' | 9 => '9'
  | _ => '0'

def natToChars (n : Nat) : List Char :=
  if n = 0 then ['0'] else (Nat.digits 10 n).reverse.map digitChar

def intToChars (n : Int) : List Char :=
  if n < 0 then '-' :: natToChars n.natAbs else natToChars n.natAbs

def escapeChars : List Char → List Char
  | [] => []
  | c :: cs => (if c = '"' ∨ c = '\\' then ['\\', c] else [c]) ++ escapeChars cs

mutual

def jsonDumpsV : Value → Option (List Char)
  | .vnone => some ['n', 'u', 'l', 'l']
  | .vbool true => some ['t', 'r', 'u', 'e']
  | .vbool false => some ['f', 'a', 'l', 's', 'e']
  | .vint n => some (intToChars n)
  | .vstr s => some ('"' :: (escapeChars s.data ++ ['"']))
  | .vbytes _ => none
  | .vlist [] => some ['[', ']']
  | .vlist (v :: vs) =>
      (jsonDumpsV v).bind fun c =>
        (jsonDumpsTail vs).map fun r => '[' :: (c ++ r) ++ [']']

def jsonDumpsTail : List Value → Option (List Char)
  | [] => some []
  | v :: vs =>
      (jsonDumpsV v).bind fun c =>
        (jsonDumpsTail vs).map fun r => ',' :: ' ' :: (c ++ r)

end

def parseDigits : List Char → Nat → Nat × List Char
  | [], acc => (acc, [])
  | c :: rest, acc =>
      if c.isDigit then parseDigits rest (acc * 10 + (c.toNat - 48)) else (acc, c :: rest)

def parseJNat : List Char → Option (Nat × List Char)
  | [] => none
  | c :: rest => if c.isDigit then some (parseDigits (c :: rest) 0) else none

def parseJStr : List Char → Option (List Char × List Char)
  | [] => none
  | '"' :: rest => some ([], rest)
  | '\\' :: e :: rest => (parseJStr rest).map fun p => (e :: p.1, p.2)
  | c :: rest => (parseJStr rest).map fun p => (c :: p.1, p.2)

mutual

def parseJV : Nat → List Char → Option (Value × List Char)
  | 0, _ => none
  | _ + 1, 'n' :: 'u' :: 'l' :: 'l' :: rest => some (.vnone, rest)
  | _ + 1, 't' :: 'r' :: 'u' :: 'e' :: rest => some (.vbool true, rest)
  | _ + 1, 'f' :: 'a' :: 'l' :: 's' :: 'e' :: rest => some (.vbool false, rest)
  | _ + 1, '"' :: rest => (parseJStr rest).map fun p => (.vstr (String.mk p.1), p.2)
  | _ + 1, '-' :: rest => (parseJNat rest).map fun p => (.vint (-(p.1 : Int)), p.2)
  | _ + 1, '[' :: ']' :: rest => some (.vlist [], rest)
  | fuel + 1, '[' :: rest =>
      (parseJV fuel rest).bind fun p =>
        (parseJTail fuel p.2).map fun q => (.vlist (p.1 :: q.1), q.2)
  | _ + 1, c :: rest =>
      if c.isDigit then (parseJNat (c :: rest)).map fun p => (.vint (p.1 : Int), p.2)
      else none
  | _ + 1, [] => none
  termination_by fuel _ => (fuel, 0)

def parseJTail : Nat → List Char → Option (List Value × List Char)
  | _, ']' :: rest => some ([], rest)
  | fuel + 1, ',' :: ' ' :: rest =>
      (parseJV (fuel + 1) rest).bind fun p =>
        (parseJTail fuel p.2).map fun q => (p.1 :: q.1, q.2)
  | _, _ => none
  termination_by fuel _ => (fuel, 1)

end

def jsonLoads (s : String) : Option Value :=
  match parseJV (s.length + 1) s.data with
  | some (v, []) => some v
  | _ => none

def jsonDumps (v : Value) : Option String :=
  (jsonDumpsV v).map String.mk

-- roundtrip machinery

def notDigitStart : List Char → Prop
  | [] => True
  | c :: _ => c.isDigit = false

theorem digitChar_isDigit {d : Nat} (h : d < 10) : (digitChar d).isDigit = true := by
  interval_cases d <;> decide

theorem digitChar_toNat {d : Nat} (h : d < 10) : (digitChar d).toNat - 48 = d := by
  interval_cases d <;> decide

theorem parseDigits_spec (ds : List Nat) (hds : ∀ d ∈ ds, d < 10) (rest : List Char)
    (hrest : notDigitStart rest) (acc : Nat) :
    parseDigits (ds.map digitChar ++ rest) acc =
      (ds.foldl (fun a d => a * 10 + d) acc, rest) := by
  induction ds generalizing acc with
  | nil =>
      cases rest with
      | nil => simp [parseDigits]
      | cons c cs =>
          simp only [notDigitStart] at hrest
          simp [parseDigits, hrest]
  | cons d ds ih =>
      have hd : d < 10 := hds d (by simp)
      simp only [List.map_cons, List.cons_append, parseDigits,
        digitChar_isDigit hd, if_pos]
      rw [digitChar_toNat hd]
      exact ih (fun x hx => hds x (by simp [hx])) _

theorem foldl_digits_reverse (L : List Nat) (acc : Nat) :
    L.reverse.foldl (fun a d => a * 10 + d) acc = acc * 10 ^ L.length + Nat.ofDigits 10 L := by
  induction L generalizing acc with
  | nil => simp [Nat.ofDigits]
  | cons d L ih =>
      simp only [List.reverse_cons, List.foldl_append, List.foldl_cons, List.foldl_nil,
        Nat.ofDigits_cons, List.length_cons, ih]
      ring

theorem parseJNat_natToChars (n : Nat) (rest : List Char) (hrest : notDigitStart rest) :
    parseJNat (natToChars n ++ rest) = some (n, rest) := by
  by_cases h : n = 0
  · subst h
    cases rest with
    | nil => simp [natToChars, parseJNat, parseDigits]
    | cons c cs =>
        simp only [notDigitStart] at hrest
        simp [natToChars, parseJNat, parseDigits, hrest]
  · have hne : Nat.digits 10 n ≠ [] := Nat.digits_ne_nil_iff_ne_zero.mpr h
    have hlt : ∀ d ∈ Nat.digits 10 n, d < 10 := fun d hd => Nat.digits_lt_base (by norm_num) hd
    have hspec := parseDigits_spec (Nat.digits 10 n).reverse
      (fun d hd => hlt d (List.mem_reverse.mp hd)) rest hrest 0
    rw [foldl_digits_reverse, Nat.ofDigits_digits] at hspec
    obtain ⟨d, L, hdl⟩ : ∃ d L, (Nat.digits 10 n).reverse = d :: L := by
      rcases hr : (Nat.digits 10 n).reverse with _ | ⟨d, L⟩
      · exact absurd (by simpa using congrArg List.reverse hr) hne
      · exact ⟨d, L, rfl⟩
    have hd10 : d < 10 := by
      apply hlt
      rw [← List.mem_reverse, hdl]
      simp
    simp only [natToChars, if_neg h, hdl, List.map_cons, List.cons_append, parseJNat,
      digitChar_isDigit hd10, if_pos]
    rw [show digitChar d :: (List.map digitChar L ++ rest) =
          List.map digitChar (d :: L) ++ rest by simp, ← hdl]
    rw [hspec]
    simp

theorem parseJStr_escape (cs : List Char) (rest : List Char) :
    parseJStr (escapeChars cs ++ ('"' :: rest)) = some (cs, rest) := by
  induction cs with
  | nil => simp [escapeChars, parseJStr]
  | cons c cs ih =>
      by_cases h : c = '"' ∨ c = '\\'
      · simp only [escapeChars, if_pos h, List.cons_append, List.append_assoc]
        simp [parseJStr, ih]
      · push_neg at h
        simp only [escapeChars, if_neg (by tauto : ¬(c = '"' ∨ c = '\\')), List.cons_append,
          List.nil_append]
        rw [parseJStr.eq_def]
        split
        · simp_all
        · simp_all
        · simp_all
        · rename_i heq
          injection heq with h1 h2
          subst h1; subst h2
          simp [ih]

theorem digitChar_ne_rbrack (d : Nat) : digitChar d ≠ ']' := by
  unfold digitChar; split <;> decide

theorem natToChars_cons (n : Nat) : ∃ c t, natToChars n = c :: t ∧ c.isDigit = true := by
  by_cases h : n = 0
  · exact ⟨'0', [], by simp [natToChars, h], by decide⟩
  · have hne : Nat.digits 10 n ≠ [] := Nat.digits_ne_nil_iff_ne_zero.mpr h
    obtain ⟨d, L, hdl⟩ : ∃ d L, (Nat.digits 10 n).reverse = d :: L := by
      rcases hr : (Nat.digits 10 n).reverse with _ | ⟨d, L⟩
      · exact absurd (by simpa using congrArg List.reverse hr) hne
      · exact ⟨d, L, rfl⟩
    have hd10 : d < 10 := by
      apply Nat.digits_lt_base (by norm_num)
      rw [← List.mem_reverse, hdl]; simp
    exact ⟨digitChar d, L.map digitChar, by simp [natToChars, h, hdl], digitChar_isDigit hd10⟩

theorem isDigit_ne_rbrack {c : Char} (h : c.isDigit = true) : c ≠ ']' := by
  intro he; subst he; simp at h

theorem jsonDumpsV_head (v : Value) (cs : List Char) (h : jsonDumpsV v = some cs) :
    ∃ c t, cs = c :: t ∧ c ≠ ']' := by
  cases v with
  | vnone =>
      simp only [jsonDumpsV, Option.some.injEq] at h
      exact ⟨'n', _, h.symm, by decide⟩
  | vbool b =>
      cases b with
      | false =>
          simp only [jsonDumpsV, Option.some.injEq] at h
          exact ⟨'f', _, h.symm, by decide⟩
      | true =>
          simp only [jsonDumpsV, Option.some.injEq] at h
          exact ⟨'t', _, h.symm, by decide⟩
  | vint n =>
      simp only [jsonDumpsV, Option.some.injEq] at h
      by_cases hn : n < 0
      · exact ⟨'-', natToChars n.natAbs, by rw [← h, intToChars, if_pos hn], by decide⟩
      · obtain ⟨c, t, hct, hd⟩ := natToChars_cons n.natAbs
        refine ⟨c, t, ?_, isDigit_ne_rbrack hd⟩
        rw [← h, intToChars, if_neg hn, hct]
  | vstr s =>
      simp only [jsonDumpsV, Option.some.injEq] at h
      exact ⟨'"', _, h.symm, by decide⟩
  | vbytes bs => simp [jsonDumpsV] at h
  | vlist l =>
      cases l with
      | nil =>
          simp only [jsonDumpsV, Option.some.injEq] at h
          exact ⟨'[', _, h.symm, by decide⟩
      | cons v vs =>
          simp only [jsonDumpsV] at h
          rcases hv : jsonDumpsV v with _ | cv
          · rw [hv] at h; simp at h
          · rcases ht : jsonDumpsTail vs with _ | ct
            · rw [hv, ht] at h; simp at h
            · rw [hv, ht] at h
              simp only [Option.some_bind, Option.map_some', Option.some.injEq] at h
              exact ⟨'[', _, h.symm, by decide⟩

theorem jsonDumpsTail_notDigit (l : List Value) (cs : List Char) (r : List Char)
    (h : jsonDumpsTail l = some cs) : notDigitStart (cs ++ ']' :: r) := by
  cases l with
  | nil =>
      simp only [jsonDumpsTail, Option.some.injEq] at h
      rw [← h]
      simp [notDigitStart]
  | cons v vs =>
      simp only [jsonDumpsTail] at h
      rcases hv : jsonDumpsV v with _ | cv
      · rw [hv] at h; simp at h
      · rcases ht : jsonDumpsTail vs with _ | ct
        · rw [hv, ht] at h; simp at h
        · rw [hv, ht] at h
          simp only [Option.some_bind, Option.map_some', Option.some.injEq] at h
          rw [← h]
          simp [notDigitStart]

theorem isDigit_toNat_bounds {c : Char} (h : c.isDigit = true) :
    48 ≤ c.toNat ∧ c.toNat ≤ 57 := by
  simp only [Char.isDigit, Bool.and_eq_true, decide_eq_true_eq, ge_iff_le] at h
  obtain ⟨h1, h2⟩ := h
  constructor
  · exact UInt32.le_toNat_of_le (by norm_num [UInt32.size]) h1
  · exact UInt32.toNat_le_of_le (by norm_num [UInt32.size]) h2

theorem eq_digitChar_of_isDigit {c : Char} (h : c.isDigit = true) :
    c = digitChar (c.toNat - 48) ∧ c.toNat - 48 < 10 := by
  obtain ⟨h1, h2⟩ := isDigit_toNat_bounds h
  have hc : c = Char.ofNat c.toNat := (Char.ofNat_toNat c).symm
  constructor
  · rw [hc]
    have : ∀ m, 48 ≤ m → m ≤ 57 → Char.ofNat m = digitChar (m - 48) := by
      intro m hm1 hm2
      interval_cases m <;> decide
    exact (this c.toNat h1 h2).trans (by rw [← hc])
  · omega
theorem parseJV_digit (fuel : Nat) (c : Char) (rest : List Char) (h : c.isDigit = true) :
    parseJV (fuel + 1) (c :: rest) =
      (parseJNat (c :: rest)).map fun p => (.vint (p.1 : Int), p.2) := by
  obtain ⟨hc, hlt⟩ := eq_digitChar_of_isDigit h
  rw [hc]
  generalize (c.toNat - 48) = m at hlt
  interval_cases m <;> simp [digitChar, parseJV]

theorem parseJV_lbrack (fuel : Nat) (c : Char) (t : List Char) (hc : c ≠ ']') :
    parseJV (fuel + 1) ('[' :: c :: t) =
      (parseJV fuel (c :: t)).bind fun p =>
        (parseJTail fuel p.2).map fun q => (.vlist (p.1 :: q.1), q.2) := by
  rw [parseJV.eq_def]
  split
  · omega
  all_goals simp_all
  rename_i heq
  exact absurd heq.1.symm (by assumption)

mutual

theorem parseJV_dumps :
    ∀ (v : Value) (cs : List Char) (fuel : Nat) (rest : List Char), sizeV v ≤ fuel →
      jsonDumpsV v = some cs → notDigitStart rest →
      parseJV fuel (cs ++ rest) = some (v, rest)
  | v, _, 0, _, h, _, _ => absurd h (by have := one_le_sizeV v; omega)
  | .vnone, cs, fuel + 1, rest, _, hc, _ => by
      simp only [jsonDumpsV, Option.some.injEq] at hc
      rw [← hc]
      simp [parseJV]
  | .vbool true, cs, fuel + 1, rest, _, hc, _ => by
      simp only [jsonDumpsV, Option.some.injEq] at hc
      rw [← hc]
      simp [parseJV]
  | .vbool false, cs, fuel + 1, rest, _, hc, _ => by
      simp only [jsonDumpsV, Option.some.injEq] at hc
      rw [← hc]
      simp [parseJV]
  | .vint n, cs, fuel + 1, rest, _, hc, hrest => by
      simp only [jsonDumpsV, Option.some.injEq] at hc
      by_cases hn : n < 0
      · rw [← hc, intToChars, if_pos hn]
        simp only [List.cons_append, parseJV]
        rw [parseJNat_natToChars n.natAbs rest hrest]
        have hcounty : -((n.natAbs : Nat) : Int) = n := by omega
        simp only [Option.map_some']
        rw [hcounty]
      · rw [← hc, intToChars, if_neg hn]
        obtain ⟨c, t, hct, hd⟩ := natToChars_cons n.natAbs
        rw [hct, List.cons_append, parseJV_digit fuel c (t ++ rest) hd,
          ← List.cons_append, ← hct, parseJNat_natToChars n.natAbs rest hrest]
        have hcounty : ((n.natAbs : Nat) : Int) = n := by omega
        simp only [Option.map_some']
        rw [hcounty]
  | .vstr s, cs, fuel + 1, rest, _, hc, _ => by
      obtain ⟨sd⟩ := s
      simp only [jsonDumpsV, Option.some.injEq] at hc
      rw [← hc]
      simp only [List.cons_append, parseJV, List.append_assoc, List.cons_append,
        List.nil_append]
      rw [parseJStr_escape sd rest]
      rfl
  | .vbytes bs, cs, fuel + 1, rest, _, hc, _ => by simp [jsonDumpsV] at hc
  | .vlist [], cs, fuel + 1, rest, _, hc, _ => by
      simp only [jsonDumpsV, Option.some.injEq] at hc
      rw [← hc]
      simp [parseJV]
  | .vlist (v :: vs), cs, fuel + 1, rest, h, hc, _ => by
      simp only [jsonDumpsV] at hc
      rcases hv : jsonDumpsV v with _ | cv
      · rw [hv] at hc; simp at hc
      rcases ht : jsonDumpsTail vs with _ | ct
      · rw [hv, ht] at hc; simp at hc
      rw [hv, ht] at hc
      simp only [Option.some_bind, Option.map_some', Option.some.injEq] at hc
      obtain ⟨c, t, hct, hcne⟩ := jsonDumpsV_head v cv hv
      have hsz : sizeV v + sizeL vs ≤ fuel := by
        have : sizeV (Value.vlist (v :: vs)) = 1 + (sizeV v + sizeL vs) := by
          simp [sizeV, sizeL]
        omega
      rw [← hc, hct]
      simp only [List.cons_append, List.append_assoc, List.nil_append]
      rw [parseJV_lbrack fuel c (t ++ (ct ++ ']' :: rest)) hcne]
      rw [show c :: (t ++ (ct ++ ']' :: rest)) = cv ++ (ct ++ ']' :: rest) by
        rw [hct]; simp]
      rw [parseJV_dumps v cv fuel (ct ++ ']' :: rest) (by omega) hv
        (jsonDumpsTail_notDigit vs ct rest ht)]
      simp only [Option.some_bind]
      rw [parseJTail_dumps vs ct fuel rest (by omega) ht]
      rfl

theorem parseJTail_dumps :
    ∀ (l : List Value) (cs : List Char) (fuel : Nat) (rest : List Char), sizeL l ≤ fuel →
      jsonDumpsTail l = some cs →
      parseJTail fuel (cs ++ (']' :: rest)) = some (l, rest)
  | [], cs, fuel, rest, _, hc => by
      simp only [jsonDumpsTail, Option.some.injEq] at hc
      rw [← hc]
      simp [parseJTail]
  | v :: vs, cs, fuel, rest, h, hc => by
      simp only [jsonDumpsTail] at hc
      rcases hv : jsonDumpsV v with _ | cv
      · rw [hv] at hc; simp at hc
      rcases ht : jsonDumpsTail vs with _ | ct
      · rw [hv, ht] at hc; simp at hc
      rw [hv, ht] at hc
      simp only [Option.some_bind, Option.map_some', Option.some.injEq] at hc
      have h1 : 1 ≤ sizeV v := one_le_sizeV v
      have hsz : sizeV v + sizeL vs ≤ fuel := by simpa [sizeL] using h
      obtain ⟨f, rfl⟩ : ∃ f, fuel = f + 1 := ⟨fuel - 1, by omega⟩
      rw [← hc]
      simp only [List.cons_append, List.append_assoc, parseJTail]
      rw [parseJV_dumps v cv (f + 1) (ct ++ ']' :: rest) (by omega) hv
        (jsonDumpsTail_notDigit vs ct rest ht)]
      simp only [Option.some_bind]
      rw [parseJTail_dumps vs ct f rest (by omega) ht]
      rfl

end

theorem natToChars_ne_nil (n : Nat) : natToChars n ≠ [] := by
  obtain ⟨c, t, hct, _⟩ := natToChars_cons n
  simp [hct]

mutual

theorem sizeV_le_jsonLength :
    ∀ (v : Value) (cs : List Char), jsonDumpsV v = some cs → sizeV v ≤ cs.length
  | .vnone, cs, hc => by
      simp only [jsonDumpsV, Option.some.injEq] at hc
      rw [← hc]; simp [sizeV]
  | .vbool true, cs, hc => by
      simp only [jsonDumpsV, Option.some.injEq] at hc
      rw [← hc]; simp [sizeV]
  | .vbool false, cs, hc => by
      simp only [jsonDumpsV, Option.some.injEq] at hc
      rw [← hc]; simp [sizeV]
  | .vint n, cs, hc => by
      simp only [jsonDumpsV, Option.some.injEq] at hc
      have hne : intToChars n ≠ [] := by
        unfold intToChars
        split
        · simp
        · exact natToChars_ne_nil n.natAbs
      rw [← hc]
      have : 1 ≤ (intToChars n).length := by
        cases hi : intToChars n with
        | nil => exact absurd hi hne
        | cons c t => simp
      simpa [sizeV] using this
  | .vstr s, cs, hc => by
      simp only [jsonDumpsV, Option.some.injEq] at hc
      rw [← hc]; simp [sizeV]
  | .vbytes bs, cs, hc => by simp [jsonDumpsV] at hc
  | .vlist [], cs, hc => by
      simp only [jsonDumpsV, Option.some.injEq] at hc
      rw [← hc]; simp [sizeV, sizeL]
  | .vlist (v :: vs), cs, hc => by
      simp only [jsonDumpsV] at hc
      rcases hv : jsonDumpsV v with _ | cv
      · rw [hv] at hc; simp at hc
      rcases ht : jsonDumpsTail vs with _ | ct
      · rw [hv, ht] at hc; simp at hc
      rw [hv, ht] at hc
      simp only [Option.some_bind, Option.map_some', Option.some.injEq] at hc
      have ih1 := sizeV_le_jsonLength v cv hv
      have ih2 := sizeL_le_jsonTailLength vs ct ht
      rw [← hc]
      simp only [sizeV, sizeL, List.length_append, List.length_cons]
      omega

theorem sizeL_le_jsonTailLength :
    ∀ (l : List Value) (cs : List Char), jsonDumpsTail l = some cs → sizeL l ≤ cs.length
  | [], cs, hc => by
      simp only [jsonDumpsTail, Option.some.injEq] at hc
      rw [← hc]; simp [sizeL]
  | v :: vs, cs, hc => by
      simp only [jsonDumpsTail] at hc
      rcases hv : jsonDumpsV v with _ | cv
      · rw [hv] at hc; simp at hc
      rcases ht : jsonDumpsTail vs with _ | ct
      · rw [hv, ht] at hc; simp at hc
      rw [hv, ht] at hc
      simp only [Option.some_bind, Option.map_some', Option.some.injEq] at hc
      have ih1 := sizeV_le_jsonLength v cv hv
      have ih2 := sizeL_le_jsonTailLength vs ct ht
      rw [← hc]
      simp only [sizeL, List.length_append, List.length_cons]
      omega

end

theorem jsonLoads_dumps (v : Value) (s : String) (h : jsonDumps v = some s) :
    jsonLoads s = some v := by
  unfold jsonDumps at h
  rcases hv : jsonDumpsV v with _ | cs
  · rw [hv] at h; simp at h
  rw [hv] at h
  simp only [Option.map_some', Option.some.injEq] at h
  have hlen : sizeV v ≤ cs.length := sizeV_le_jsonLength v cs hv
  have hslen : s.length = cs.length := by rw [← h]; rfl
  have hsdata : s.data = cs := by rw [← h]
  unfold jsonLoads
  rw [hslen, hsdata]
  have := parseJV_dumps v cs (cs.length + 1) [] (by omega) hv (by simp [notDigitStart])
  rw [List.append_nil] at this
  rw [this]

/-- Interface of an encoder as used by DurableDict: `encode`/`decode`
with failures normalized to `EncodingError`/`DecodingError`
(durabledict/encoding.py, `Encoder.encode`/`Encoder.decode`,
lines 35-47). -/
structure EncoderI : Type where
  encode : Value → Except PyErr Value
  decode : Value → Except PyErr Value

/-- NoOpEncoding (durabledict/encoding.py lines 50-52): identity in both
directions, never raises. -/
def NoOpEncoding : EncoderI :=
  { encode := fun v => .ok v
    decode := fun v => .ok v }

/-- PickleEncoding (durabledict/encoding.py lines 55-67): encoding
produces the serialized byte string; decoding anything that is not a
well-formed serialized byte string raises `DecodingError` (`TypeError`
and `pickle.UnpicklingError` are both in `decoding_exceptions` and are
normalized by `Encoder.decode`). -/
def PickleEncoding : EncoderI :=
  { encode := fun v => .ok (.vbytes (pickleDumps v))
    decode := fun v =>
      match v with
      | .vbytes bs =>
          match pickleLoads bs with
          | some w => .ok w
          | none => .error .decodingError
      | _ => .error .decodingError }

/-- JSONEncoding (durabledict/encoding.py lines 70-75): `json.dumps` /
`json.loads` with `TypeError`/`ValueError` normalized to
`EncodingError`/`DecodingError`.  Byte strings are outside the modelled
JSON fragment, so encoding them is modelled as `EncodingError`. -/
def JSONEncoding : EncoderI :=
  { encode := fun v =>
      match jsonDumpsV v with
      | some cs => .ok (.vstr (String.mk cs))
      | none => .error .encodingError
    decode := fun v =>
      match v with
      | .vstr s =>
          match jsonLoads s with
          | some w => .ok w
          | none => .error .decodingError
      | _ => .error .decodingError }

/-- DefaultEncoding = PickleEncoding (durabledict/encoding.py line 78). -/
def DefaultEncoding : EncoderI := PickleEncoding

/-- DurableDict._encode (durabledict/base.py lines 99-106): try the
primary encoder's `encode`; on `EncodingError` fall back to the old
encoder's `encode` when one is configured, else re-raise. -/
def dEncode (encoding : EncoderI) (old : Option EncoderI) (val : Value) :
    Except PyErr Value :=
  match encoding.encode val with
  | .ok r => .ok r
  | .error e =>
      if e = .encodingError then
        match old with
        | some o => o.encode val
        | none => .error e
      else .error e

/-- DurableDict._decode (durabledict/base.py lines 108-115), exactly as
written in the source: the body calls `self.encoding.encode(val)` (and
`self.old_encoding.encode(val)` in the fallback), not `decode` -- it is
a verbatim copy of `_encode`. -/
def dDecode (encoding : EncoderI) (old : Option EncoderI) (val : Value) :
    Except PyErr Value :=
  match encoding.encode val with
  | .ok r => .ok r
  | .error e =>
      if e = .encodingError then
        match old with
        | some o => o.encode val
        | none => .error e
      else .error e

/-- DurableDict.cache_expired (durabledict/base.py lines 29-34): returns
the durable store's version when `last_synced` is falsy or the version
is strictly newer, and (implicitly) `None` otherwise. -/
def cacheExpired (lastSynced : Int) (durableVersion : Int) : Option Int :=
  if lastSynced = 0 ∨ durableVersion > lastSynced then some durableVersion else none

/-- Python truthiness of the `cache_expired` result: `None` and `0` are
falsy, every other integer is truthy. -/
def optTruthy : Option Int → Bool
  | none => false
  | some v => v != 0

/-- The storage-adapter contract consumed by DurableDict (spec section
4.4): write-one, delete-one, read-all (as a lookup function),
read-version, and the backend-specific `_pop`/`_setdefault` composites. -/
structure Backend (σ : Type) : Type where
  persist : σ → String → Value → σ
  depersist : σ → String → σ
  durables : σ → String → Option Value
  lastUpdated : σ → Int
  popOp : σ → String → Value → σ × Except PyErr Value
  setdefaultOp : σ → String → Value → σ × Except PyErr Value

/-- The mutable state of one DurableDict instance (durabledict/base.py
`__init__`, lines 21-27): the backend connection, the in-memory mirror
(`self.__dict`), `last_synced`, and the `autosync` flag. -/
structure DDState (σ : Type) : Type where
  backend : σ
  mirror : String → Option Value
  lastSynced : Int
  autosync : Bool

/-- DurableDict.__sync_with_durable_storage (durabledict/base.py lines
89-97): skip when autosync is off and the sync is not forced; otherwise
reload the whole mirror and advance `last_synced` iff `cache_expired`
is truthy.  The identical method appears verbatim (modulo naming) as
`PersistedDict.__sync_with_persistent_storage` in modeldict/base.py
lines 69-77. -/
def syncWith {σ : Type} (B : Backend σ) (force : Bool) (s : DDState σ) : DDState σ :=
  if ¬s.autosync ∧ ¬force then s
  else
    let ce := cacheExpired s.lastSynced (B.lastUpdated s.backend)
    if optTruthy ce then
      { s with mirror := B.durables s.backend, lastSynced := ce.getD 0 }
    else s

/-- DurableDict construction (durabledict/base.py lines 21-27): empty
mirror, `last_synced = 0`, then one forced sync. -/
def ddInit {σ : Type} (B : Backend σ) (b0 : σ) (autosync : Bool) : DDState σ :=
  syncWith B true { backend := b0, mirror := fun _ => none, lastSynced := 0, autosync := autosync }

/-- DurableDict.__setitem__ (durabledict/base.py lines 53-55): persist,
then forced sync. -/
def ddSetitem {σ : Type} (B : Backend σ) (s : DDState σ) (k : String) (v : Value) :
    DDState σ :=
  syncWith B true { s with backend := B.persist s.backend k v }

/-- DurableDict.__delitem__ (durabledict/base.py lines 57-59): depersist,
then forced sync. -/
def ddDelitem {σ : Type} (B : Backend σ) (s : DDState σ) (k : String) : DDState σ :=
  syncWith B true { s with backend := B.depersist s.backend k }

/-- DurableDict.pop (durabledict/base.py lines 39-42): backend `_pop`,
then forced sync, then return the result. -/
def ddPop {σ : Type} (B : Backend σ) (s : DDState σ) (k : String) (d : Value) :
    DDState σ × Except PyErr Value :=
  let r := B.popOp s.backend k d
  (syncWith B true { s with backend := r.1 }, r.2)

/-- DurableDict.setdefault (durabledict/base.py lines 44-47): backend
`_setdefault`, then forced sync, then return the result. -/
def ddSetdefault {σ : Type} (B : Backend σ) (s : DDState σ) (k : String) (d : Value) :
    DDState σ × Except PyErr Value :=
  let r := B.setdefaultOp s.backend k d
  (syncWith B true { s with backend := r.1 }, r.2)

/-- DurableDict.get (durabledict/base.py lines 49-51): conditional sync,
then `self.__dict.get(key, default)` -- total, never raises. -/
def ddGet {σ : Type} (B : Backend σ) (s : DDState σ) (k : String) (d : Value) :
    DDState σ × Value :=
  let s' := syncWith B false s
  (s', (s'.mirror k).getD d)

/-- DurableDict.__getitem__ (durabledict/base.py lines 61-63):
conditional sync, then mirror lookup raising `KeyError` when absent.
PersistedDict.__getitem__ (modeldict/base.py lines 50-52) is identical. -/
def ddGetitem {σ : Type} (B : Backend σ) (s : DDState σ) (k : String) :
    DDState σ × Except PyErr Value :=
  let s' := syncWith B false s
  (s', match s'.mirror k with
       | some v => .ok v
       | none => .error .keyError)

/-- DurableDict.sync (durabledict/base.py lines 36-37): forced sync. -/
def ddSync {σ : Type} (B : Backend σ) (s : DDState σ) : DDState σ :=
  syncWith B true s

/-- PersistedDict.get of the legacy modeldict/base.py (lines 29-30):
`return self.__getitem__(key) or default`.  It goes through
`__getitem__`, so an absent key raises `KeyError`, and a present but
falsy value is replaced by the default. -/
def pdGet {σ : Type} (B : Backend σ) (s : DDState σ) (k : String) (d : Value) :
    DDState σ × Except PyErr Value :=
  let r := ddGetitem B s k
  (r.1, match r.2 with
        | .ok v => .ok (if pyTruthy v then v else d)
        | .error e => .error e)

/-- Lookup in an association list (model of a Python dict / redis hash
field lookup). -/
def alookup : List (String × Value) → String → Option Value
  | [], _ => none
  | p :: rest, k => if p.1 = k then some p.2 else alookup rest k

/-- Key update in an association list (model of `d[k] = v` / HSET). -/
def aset : List (String × Value) → String → Value → List (String × Value)
  | [], k, v => [(k, v)]
  | p :: rest, k, v => if p.1 = k then (k, v) :: rest else p :: aset rest k v

/-- Key removal from an association list (model of `del d[k]` / HDEL). -/
def aremove : List (String × Value) → String → List (String × Value)
  | [], _ => []
  | p :: rest, k => if p.1 = k then aremove rest k else p :: aremove rest k

/-- State of the redis keyspace a RedisDict instance uses: the hash at
`keyspace` and the integer at `keyspace + 'last_updated'` (absent until
first INCR). -/
structure RedisState : Type where
  hash : List (String × Value)
  counter : Option Int

/-- RedisDict.last_updated (durabledict/redis.py lines 33-34):
`int(conn.get(key) or 0)` -- 0 when the counter key is absent. -/
def redisLastUpdated (st : RedisState) : Int :=
  st.counter.getD 0

/-- Redis INCR on the counter key: create-at-1 when absent, else add 1
(the `pipe.incr` every `__touch_and_multi` block begins with,
durabledict/redis.py line 69, and `__touch_last_updated` line 78-79). -/
def redisIncr (c : Option Int) : Option Int :=
  some (c.getD 0 + 1)

/-- RedisDict.persist (durabledict/redis.py lines 21-23): `_encode` the
value (errors propagate before anything is written), then one MULTI
block doing INCR of the counter plus HSET. -/
def redisPersist (enc : EncoderI) (old : Option EncoderI) (st : RedisState)
    (k : String) (v : Value) : RedisState × Except PyErr Unit :=
  match dEncode enc old v with
  | .error e => (st, .error e)
  | .ok ev => ({ hash := aset st.hash k ev, counter := redisIncr st.counter }, .ok ())

/-- RedisDict._setdefault (durabledict/redis.py lines 39-45): one MULTI
block with INCR of the counter, HSETNX of the encoded default, and HGET;
the HGET result (`returns=-1`) is passed through `_decode`.  Note the
counter is incremented whether or not the key already existed (the TODO
comment at lines 36-38 records that it should not be). -/
def redisSetdefault (enc : EncoderI) (old : Option EncoderI) (st : RedisState)
    (k : String) (d : Value) : RedisState × Except PyErr Value :=
  match dEncode enc old d with
  | .error e => (st, .error e)
  | .ok ed =>
      let hash' := match alookup st.hash k with
                   | none => aset st.hash k ed
                   | some _ => st.hash
      let st' : RedisState := { hash := hash', counter := redisIncr st.counter }
      (st', match alookup hash' k with
            | some gv => dDecode enc old gv
            | none => .error .keyError)

/-- RedisDict._pop (durabledict/redis.py lines 47-58): one MULTI block
with INCR of the counter, HGET and HDEL; then return the decoded value
when the key existed, else the default when it is truthy, else raise
`KeyError`. -/
def redisPop (enc : EncoderI) (old : Option EncoderI) (st : RedisState)
    (k : String) (d : Value) : RedisState × Except PyErr Value :=
  let st' : RedisState := { hash := aremove st.hash k, counter := redisIncr st.counter }
  match alookup st.hash k with
  | some gv => (st', dDecode enc old gv)
  | none => if pyTruthy d then (st', .ok d) else (st', .error .keyError)

/-- State of a MemoryDict backend (modeldict/memory.py lines 10-13):
the private storage dict and the `__last_updated` integer, which starts
at 1. -/
structure MemState : Type where
  storage : List (String × Value)
  lastUpdated : Nat

/-- MemoryDict.persist (modeldict/memory.py lines 15-17): store the
(identity-) encoded value and bump `__last_updated`. -/
def memPersist (st : MemState) (k : String) (v : Value) : MemState :=
  { storage := aset st.storage k v, lastUpdated := st.lastUpdated + 1 }

/-- MemoryDict.depersist (modeldict/memory.py lines 19-21). -/
def memDepersist (st : MemState) (k : String) : MemState :=
  { storage := aremove st.storage k, lastUpdated := st.lastUpdated + 1 }

/-- MemoryDict._setdefault (modeldict/memory.py lines 31-34): bump
`__last_updated` unconditionally, then `dict.setdefault`. -/
def memSetdefault (st : MemState) (k : String) (d : Value) : MemState × Except PyErr Value :=
  let st' : MemState :=
    { storage := match alookup st.storage k with
                 | none => aset st.storage k d
                 | some _ => st.storage
      lastUpdated := st.lastUpdated + 1 }
  (st', match alookup st.storage k with
        | some v => .ok v
        | none => .ok d)

/-- MemoryDict._pop (modeldict/memory.py lines 36-47): bump
`__last_updated` unconditionally; `_encode` the default when it is
truthy (`_encode` is the identity here); `dict.pop(key, default)`; raise
`KeyError` iff the resulting value `is None`. -/
def memPop (st : MemState) (k : String) (d : Value) : MemState × Except PyErr Value :=
  let d' := if pyTruthy d then d else d
  let val := match alookup st.storage k with
             | some v => v
             | none => d'
  let st' : MemState :=
    { storage := aremove st.storage k, lastUpdated := st.lastUpdated + 1 }
  (st', match val with
        | .vnone => .error .keyError
        | v => .ok v)

/-- The Backend record for a MemoryDict (modeldict/memory.py), used to
instantiate the generic DurableDict layer in witnesses.  `durables` is
MemoryDict.persistents (lines 23-26, identity decode). -/
def memBackend : Backend MemState :=
  { persist := memPersist
    depersist := memDepersist
    durables := fun st => alookup st.storage
    lastUpdated := fun st => (st.lastUpdated : Int)
    popOp := memPop
    setdefaultOp := memSetdefault }

/-- ModelDict.LAST_UPDATED_MISSING_INCREMENT (durabledict/models.py
line 49). -/
def LAST_UPDATED_MISSING_INCREMENT : Int := 1000

/-- Django-style cache `incr` on the `last_updated` key: raises
`ValueError` when the key is missing (the exception
ModelDict.touch_last_updated catches, durabledict/models.py line 120). -/
def cacheIncr : Option Int → Except PyErr (Option Int)
  | none => .error .valueError
  | some v => .ok (some (v + 1))

/-- Django-style cache `add`: create the key only if absent, and report
whether it was created (durabledict/models.py lines 145-148). -/
def cacheAdd (c : Option Int) (v : Int) : Option Int × Bool :=
  match c with
  | none => (some v, true)
  | some w => (some w, false)

/-- ModelDict.touch_last_updated (durabledict/models.py lines 117-159):
try `incr`; on `ValueError` (counter absent) try `add` with
`last_synced + LAST_UPDATED_MISSING_INCREMENT`; if the `add` lost the
race to another instance, fall back to a plain `incr`.  The concurrent
interleaving between the failed `incr` and the `add` is modelled by the
`interfere` function applied to the cache state at that point; the
narrower race between `add` and the final `incr` (the XXX comment at
lines 150-153) is not modelled, matching the source's own accepted
limitation. -/
def touchLastUpdated (interfere : Option Int → Option Int) (c : Option Int)
    (lastSynced : Int) : Except PyErr (Option Int) :=
  match cacheIncr c with
  | .ok c' => .ok c'
  | .error _ =>
      let c1 := interfere c
      let r := cacheAdd c1 (lastSynced + LAST_UPDATED_MISSING_INCREMENT)
      if r.2 then .ok r.1
      else cacheIncr r.1

mutual

/-- Values in the claim's round-trip classes: None, booleans, integers,
text strings (including unicode) and nested lists of these -- i.e.
everything except raw byte strings, which the modelled JSON codec does
not serialize. -/
def pureV : Value → Bool
  | .vnone => true
  | .vbool _ => true
  | .vint _ => true
  | .vstr _ => true
  | .vbytes _ => false
  | .vlist l => pureL l

def pureL : List Value → Bool
  | [] => true
  | v :: vs => pureV v && pureL vs

end

mutual

theorem jsonDumpsV_total :
    ∀ v : Value, pureV v = true → ∃ cs, jsonDumpsV v = some cs
  | .vnone, _ => ⟨_, rfl⟩
  | .vbool true, _ => ⟨_, rfl⟩
  | .vbool false, _ => ⟨_, rfl⟩
  | .vint n, _ => ⟨_, rfl⟩
  | .vstr s, _ => ⟨_, rfl⟩
  | .vbytes bs, h => by simp [pureV] at h
  | .vlist [], _ => ⟨_, rfl⟩
  | .vlist (v :: vs), h => by
      have hp : pureV v = true ∧ pureL vs = true := by
        simpa [pureV, pureL, Bool.and_eq_true] using h
      obtain ⟨cv, hv⟩ := jsonDumpsV_total v hp.1
      obtain ⟨ct, ht⟩ := jsonDumpsTail_total vs hp.2
      exact ⟨'[' :: (cv ++ ct) ++ [']'], by simp [jsonDumpsV, hv, ht]⟩

theorem jsonDumpsTail_total :
    ∀ l : List Value, pureL l = true → ∃ cs, jsonDumpsTail l = some cs
  | [], _ => ⟨_, rfl⟩
  | v :: vs, h => by
      have hp : pureV v = true ∧ pureL vs = true := by
        simpa [pureL, Bool.and_eq_true] using h
      obtain ⟨cv, hv⟩ := jsonDumpsV_total v hp.1
      obtain ⟨ct, ht⟩ := jsonDumpsTail_total vs hp.2
      exact ⟨',' :: ' ' :: (cv ++ ct), by simp [jsonDumpsTail, hv, ht]⟩

end

theorem aremove_of_alookup_none :
    ∀ (l : List (String × Value)) (k : String), alookup l k = none → aremove l k = l
  | [], _, _ => rfl
  | p :: rest, k, h => by
      by_cases hp : p.1 = k
      · simp [alookup, hp] at h
      · simp only [alookup, if_neg hp] at h
        simp [aremove, hp, aremove_of_alookup_none rest k h]

theorem syncWith_force_reload {σ : Type} (B : Backend σ) (s : DDState σ)
    (h0 : 0 ≤ s.lastSynced) (h : B.lastUpdated s.backend > s.lastSynced) :
    (syncWith B true s).mirror = B.durables s.backend
    ∧ (syncWith B true s).lastSynced = B.lastUpdated s.backend := by
  have hcond : s.lastSynced = 0 ∨ B.lastUpdated s.backend > s.lastSynced := Or.inr h
  have hne : B.lastUpdated s.backend ≠ 0 := by omega
  simp [syncWith, cacheExpired, optTruthy, hcond, hne]

theorem syncWith_backend_unchanged {σ : Type} (B : Backend σ) (force : Bool)
    (s : DDState σ) : (syncWith B force s).backend = s.backend := by
  unfold syncWith
  split
  · rfl
  · dsimp only
    split <;> rfl

theorem syncWith_noop_of_synced {σ : Type} (B : Backend σ) (s : DDState σ)
    (h1 : 0 < s.lastSynced) (h2 : s.lastSynced = B.lastUpdated s.backend) :
    syncWith B false s = s := by
  have hcond : ¬(s.lastSynced = 0 ∨ B.lastUpdated s.backend > s.lastSynced) := by omega
  by_cases ha : s.autosync
  · simp [syncWith, cacheExpired, optTruthy, hcond, ha]
  · simp [syncWith, ha]

/-- C4 counterexample: with `last_synced` unset (0) and durable version
0, the claim's condition holds (`last_synced` is unset) but
`cache_expired` returns `0`, which is falsy -- the claimed equivalence
fails at this state. -/
theorem C4_counterexample :
    ¬(optTruthy (cacheExpired 0 0) = true ↔ ((0 : Int) = 0 ∨ (0 : Int) > 0)) := by
  decide

/-- C4 (amended): `cache_expired` is truthy iff the durable version is
itself nonzero AND (`last_synced` is unset or the durable version is
strictly greater than `last_synced`).  In particular it is falsy, not
truthy, when `last_synced` is unset but the durable version is 0. -/
theorem C4_cache_expired_truthy (ls ver : Int) :
    optTruthy (cacheExpired ls ver) = true ↔ (ver ≠ 0 ∧ (ls = 0 ∨ ver > ls)) := by
  by_cases h : ls = 0 ∨ ver > ls
  · simp only [cacheExpired, if_pos h, optTruthy, bne_iff_ne, ne_eq]
    tauto
  · simp only [cacheExpired, if_neg h, optTruthy]
    simp only [Bool.false_eq_true, false_iff]
    omega

/-- C7: the version-counter touch operation.  When the counter is
present it is atomically incremented (a strict increase); when it is
absent, an atomic create-if-absent writes
`last_synced + LAST_UPDATED_MISSING_INCREMENT` (= 1000); when that
creation loses the race to another instance that already recreated the
counter, a plain increment of the recreated value is performed (again a
strict increase over the visible value). -/
theorem C7_touch_last_updated (interfere : Option Int → Option Int) (c : Option Int)
    (ls : Int) :
    (∀ v, c = some v →
      touchLastUpdated interfere c ls = .ok (some (v + 1)) ∧ v < v + 1)
    ∧ (c = none → interfere none = none →
      touchLastUpdated interfere c ls = .ok (some (ls + LAST_UPDATED_MISSING_INCREMENT))
      ∧ LAST_UPDATED_MISSING_INCREMENT = 1000)
    ∧ (∀ w, c = none → interfere none = some w →
      touchLastUpdated interfere c ls = .ok (some (w + 1)) ∧ w < w + 1) := by
  refine ⟨?_, ?_, ?_⟩
  · intro v hv
    subst hv
    exact ⟨by simp [touchLastUpdated, cacheIncr], by omega⟩
  · intro hc hi
    subst hc
    refine ⟨?_, rfl⟩
    simp [touchLastUpdated, cacheIncr, hi, cacheAdd]
  · intro w hc hi
    subst hc
    refine ⟨?_, by omega⟩
    simp [touchLastUpdated, cacheIncr, hi, cacheAdd]

theorem C7_witness :
    touchLastUpdated (fun x => x) (some 5) 0 = .ok (some 6)
    ∧ touchLastUpdated (fun _ => none) none 3 = .ok (some 1003)
    ∧ touchLastUpdated (fun _ => some 7) none 0 = .ok (some 8) :=
  ⟨((C7_touch_last_updated (fun x => x) (some 5) 0).1 5 rfl).1,
   by
     have h := ((C7_touch_last_updated (fun _ => none) none 3).2.1 rfl rfl).1
     simpa [LAST_UPDATED_MISSING_INCREMENT] using h,
   ((C7_touch_last_updated (fun _ => some 7) none 0).2.2 7 rfl rfl).1⟩

/-- C9: for every configured encoder (pickle-based, JSON-based, no-op)
and every value in the claimed classes (integers, strings including
unicode text, nested sequences -- captured by `pureV`),
`decode(encode(v)) == v`. -/
theorem C9_encoder_roundtrip (v : Value) (h : pureV v = true) :
    ((NoOpEncoding.encode v).bind NoOpEncoding.decode = .ok v)
    ∧ ((PickleEncoding.encode v).bind PickleEncoding.decode = .ok v)
    ∧ ((JSONEncoding.encode v).bind JSONEncoding.decode = .ok v) := by
  refine ⟨rfl, ?_, ?_⟩
  · show PickleEncoding.decode (Value.vbytes (pickleDumps v)) = .ok v
    simp [PickleEncoding, pickleLoads_dumps v]
  · obtain ⟨cs, hcs⟩ := jsonDumpsV_total v h
    have hl : jsonLoads (String.mk cs) = some v :=
      jsonLoads_dumps v (String.mk cs) (by simp [jsonDumps, hcs])
    show (JSONEncoding.encode v).bind JSONEncoding.decode = .ok v
    simp only [JSONEncoding, hcs]
    show JSONEncoding.decode (Value.vstr (String.mk cs)) = .ok v
    simp [JSONEncoding, hl]

theorem C9_witness :
    pureV (Value.vlist [Value.vint 7, Value.vstr (String.mk ['s', '☃']),
      Value.vlist [Value.vint (-3), Value.vnone]]) = true
    ∧ (((NoOpEncoding.encode (Value.vlist [Value.vint 7, Value.vstr (String.mk ['s', '☃']),
        Value.vlist [Value.vint (-3), Value.vnone]])).bind NoOpEncoding.decode
          = .ok (Value.vlist [Value.vint 7, Value.vstr (String.mk ['s', '☃']),
            Value.vlist [Value.vint (-3), Value.vnone]]))
      ∧ ((PickleEncoding.encode (Value.vlist [Value.vint 7, Value.vstr (String.mk ['s', '☃']),
        Value.vlist [Value.vint (-3), Value.vnone]])).bind PickleEncoding.decode
          = .ok (Value.vlist [Value.vint 7, Value.vstr (String.mk ['s', '☃']),
            Value.vlist [Value.vint (-3), Value.vnone]]))
      ∧ ((JSONEncoding.encode (Value.vlist [Value.vint 7, Value.vstr (String.mk ['s', '☃']),
        Value.vlist [Value.vint (-3), Value.vnone]])).bind JSONEncoding.decode
          = .ok (Value.vlist [Value.vint 7, Value.vstr (String.mk ['s', '☃']),
            Value.vlist [Value.vint (-3), Value.vnone]]))) :=
  ⟨rfl, C9_encoder_roundtrip _ rfl⟩

/-- C1 (code evaluation at the failing input): `DurableDict._decode` is
a verbatim copy of `_encode` and calls `self.encoding.encode`, never
`decode`.  Scenario: old codec = NoOpEncoding, new codec =
PickleEncoding, stored value written under the old codec is the value
itself (`vint 7`).  The first three conjuncts show what the claimed
fallback policy would produce: the primary decode fails with
`DecodingError` and the old codec's decode recovers `vint 7`.  The last
three show the source's `_decode`: it re-encodes the stored value to a
pickle byte string instead of decoding it, and with only the new codec
configured it still returns that byte string instead of raising
`DecodingError`. -/
theorem C1_decode_calls_encode :
    NoOpEncoding.encode (Value.vint 7) = .ok (Value.vint 7)
    ∧ PickleEncoding.decode (Value.vint 7) = .error .decodingError
    ∧ NoOpEncoding.decode (Value.vint 7) = .ok (Value.vint 7)
    ∧ dDecode PickleEncoding (some NoOpEncoding) (Value.vint 7)
        = .ok (Value.vbytes [2, 0, 7])
    ∧ dDecode PickleEncoding (some NoOpEncoding) (Value.vint 7) ≠ .ok (Value.vint 7)
    ∧ dDecode PickleEncoding none (Value.vint 7) = .ok (Value.vbytes [2, 0, 7]) := by
  refine ⟨rfl, rfl, rfl, rfl, ?_, rfl⟩
  intro h
  rw [show dDecode PickleEncoding (some NoOpEncoding) (Value.vint 7)
      = .ok (Value.vbytes [2, 0, 7]) from rfl] at h
  injection h with h1
  cases h1

/-- C2 (code evaluation at the failing input): `setdefault` on a key
that already exists still bumps the shared version counter, in both the
redis backend (`RedisDict._setdefault` always runs `INCR` inside its
MULTI block; its own TODO comment says it should not) and the in-memory
backend (`MemoryDict._setdefault` increments `__last_updated`
unconditionally).  The counter goes from 3 to 4 although the key "k"
was already present. -/
theorem C2_setdefault_existing_key_touches :
    alookup [(("k" : String), Value.vstr (String.mk ['v']))] "k"
        = some (Value.vstr (String.mk ['v']))
    ∧ (redisSetdefault PickleEncoding none
        { hash := [("k", Value.vstr (String.mk ['v']))], counter := some 3 }
        "k" (Value.vstr (String.mk ['x']))).1.counter = some 4
    ∧ (memSetdefault { storage := [("k", Value.vstr (String.mk ['v']))], lastUpdated := 3 }
        "k" (Value.vstr (String.mk ['x']))).1.lastUpdated = 4 := by
  refine ⟨rfl, ?_, rfl⟩
  show some ((3 : Int) + 1) = some 4
  norm_num

/-- C6 counterexample: in the in-memory backend, popping an absent key
with an explicit (truthy) default does return the default and leaves the
contents unchanged, but it does NOT leave the version unchanged:
`MemoryDict._pop` increments `__last_updated` unconditionally (5 to 6
here), contradicting the claim's "no mutation" of the version. -/
theorem C6_counterexample :
    (memPop { storage := [("foo", Value.vstr (String.mk ['b']))], lastUpdated := 5 }
        "junk" (Value.vstr (String.mk ['d']))).2 = .ok (Value.vstr (String.mk ['d']))
    ∧ (memPop { storage := [("foo", Value.vstr (String.mk ['b']))], lastUpdated := 5 }
        "junk" (Value.vstr (String.mk ['d']))).1.lastUpdated ≠ 5 := by
  exact ⟨rfl, by decide⟩

/-- C6 (amended): for the in-memory and redis backends, popping an
absent key with a truthy default returns the default and leaves the
stored contents unchanged, but increments the version counter by one;
popping an absent key with no default (Python `None`) raises
`KeyError`. -/
theorem C6_pop_missing_amended :
    (∀ (st : MemState) (k : String) (d : Value),
      alookup st.storage k = none →
      (pyTruthy d = true →
        (memPop st k d).2 = .ok d
        ∧ (memPop st k d).1.storage = st.storage
        ∧ (memPop st k d).1.lastUpdated = st.lastUpdated + 1)
      ∧ (memPop st k .vnone).2 = .error .keyError)
    ∧ (∀ (enc : EncoderI) (old : Option EncoderI) (rst : RedisState) (k : String) (d : Value),
      alookup rst.hash k = none →
      (pyTruthy d = true →
        (redisPop enc old rst k d).2 = .ok d
        ∧ (redisPop enc old rst k d).1.hash = rst.hash
        ∧ redisLastUpdated (redisPop enc old rst k d).1 = redisLastUpdated rst + 1)
      ∧ (redisPop enc old rst k .vnone).2 = .error .keyError) := by
  constructor
  · intro st k d habs
    constructor
    · intro htru
      refine ⟨?_, ?_, rfl⟩
      · cases d with
        | vnone => simp [pyTruthy] at htru
        | vbool b => simp [memPop, habs]
        | vint n => simp [memPop, habs]
        | vstr s => simp [memPop, habs]
        | vbytes bs => simp [memPop, habs]
        | vlist l => simp [memPop, habs]
      · exact aremove_of_alookup_none st.storage k habs
    · simp [memPop, habs]
  · intro enc old rst k d habs
    have hrem := aremove_of_alookup_none rst.hash k habs
    constructor
    · intro htru
      refine ⟨by simp [redisPop, habs, htru], by simp [redisPop, habs, htru, hrem], ?_⟩
      cases rst.counter <;>
        simp [redisPop, habs, htru, redisLastUpdated, redisIncr]
    · simp [redisPop, habs, pyTruthy]

theorem C6_witness :
    alookup ([("foo", Value.vstr (String.mk ['b']))] : List (String × Value)) "junk" = none
    ∧ (memPop { storage := [("foo", Value.vstr (String.mk ['b']))], lastUpdated := 5 }
        "junk" (Value.vint 9)).2 = .ok (Value.vint 9)
    ∧ (memPop { storage := [("foo", Value.vstr (String.mk ['b']))], lastUpdated := 5 }
        "junk" Value.vnone).2 = .error .keyError
    ∧ (redisPop PickleEncoding none { hash := [], counter := some 2 }
        "junk" (Value.vint 9)).2 = .ok (Value.vint 9)
    ∧ redisLastUpdated (redisPop PickleEncoding none { hash := [], counter := some 2 }
        "junk" (Value.vint 9)).1 = 3 := by
  have hm := (C6_pop_missing_amended.1
    { storage := [("foo", Value.vstr (String.mk ['b']))], lastUpdated := 5 }
    "junk" (Value.vint 9) rfl)
  have hr := (C6_pop_missing_amended.2 PickleEncoding none
    { hash := [], counter := some 2 } "junk" (Value.vint 9) rfl)
  refine ⟨rfl, (hm.1 (by decide)).1, ?_, (hr.1 (by decide)).1, ?_⟩
  · exact (C6_pop_missing_amended.1
      { storage := [("foo", Value.vstr (String.mk ['b']))], lastUpdated := 5 }
      "junk" Value.vnone rfl).2
  · have h3 := (hr.1 (by decide)).2.2
    rw [h3]
    decide

/-- C10 counterexample: in the in-memory backend, popping an absent key
with the falsy default `0` does not raise `KeyError` -- it returns `0`.
`MemoryDict._pop` raises only when the popped-or-default value
`is None`, so falsy non-None defaults are returned, unlike what the
claim states for the in-memory backend. -/
theorem C10_counterexample :
    (memPop { storage := [], lastUpdated := 1 } "missing" (Value.vint 0)).2
      = .ok (Value.vint 0) := rfl

/-- C10 (amended): on an absent key, the redis backend raises `KeyError`
for every falsy default (it branches on `elif default:`), while the
in-memory backend raises only when the default is `None` (it branches on
`if val is None:`) and returns any falsy non-None default such as `0`,
`''` or `False`. -/
theorem C10_falsy_default_amended :
    (∀ (enc : EncoderI) (old : Option EncoderI) (rst : RedisState) (k : String) (d : Value),
      alookup rst.hash k = none → pyTruthy d = false →
      (redisPop enc old rst k d).2 = .error .keyError)
    ∧ (∀ (mst : MemState) (k : String),
      alookup mst.storage k = none →
      (memPop mst k .vnone).2 = .error .keyError)
    ∧ (∀ (mst : MemState) (k : String) (d : Value),
      alookup mst.storage k = none → pyTruthy d = false → d ≠ .vnone →
      (memPop mst k d).2 = .ok d) := by
  refine ⟨?_, ?_, ?_⟩
  · intro enc old rst k d habs hfal
    simp [redisPop, habs, hfal]
  · intro mst k habs
    simp [memPop, habs]
  · intro mst k d habs hfal hne
    cases d with
    | vnone => exact absurd rfl hne
    | vbool b => simp [memPop, habs]
    | vint n => simp [memPop, habs]
    | vstr s => simp [memPop, habs]
    | vbytes bs => simp [memPop, habs]
    | vlist l => simp [memPop, habs]

theorem C10_witness :
    (redisPop PickleEncoding none { hash := [], counter := some 1 }
        "missing" (Value.vint 0)).2 = .error .keyError
    ∧ (memPop { storage := [], lastUpdated := 1 } "missing" Value.vnone).2
        = .error .keyError
    ∧ (memPop { storage := [], lastUpdated := 1 } "missing" (Value.vstr (String.mk []))).2
        = .ok (Value.vstr (String.mk [])) :=
  ⟨C10_falsy_default_amended.1 PickleEncoding none
      { hash := [], counter := some 1 } "missing" (Value.vint 0) rfl rfl,
   C10_falsy_default_amended.2.1 { storage := [], lastUpdated := 1 } "missing" rfl,
   C10_falsy_default_amended.2.2 { storage := [], lastUpdated := 1 } "missing"
      (Value.vstr (String.mk [])) rfl rfl (fun h => nomatch h)⟩

/-- C5 counterexample: the legacy `PersistedDict.get`
(modeldict/base.py lines 29-30) is `self.__getitem__(key) or default`,
so looking up an absent key raises `KeyError` instead of returning the
supplied default -- the claim's "never raises" fails on this cited
implementation. -/
theorem C5_counterexample :
    (pdGet memBackend
        { backend := { storage := [], lastUpdated := 1 },
          mirror := fun _ => none, lastSynced := 1, autosync := true }
        "missing" (Value.vstr (String.mk ['d']))).2 = .error .keyError := rfl

/-- C5 (amended): the never-raises lookup holds for `DurableDict.get`
(durabledict/base.py lines 49-51): after the conditional resync it
returns the supplied default when the key is absent and the stored value
when it is present, and it is a total function (no exception path).  The
legacy `PersistedDict.get` raises `KeyError` on an absent key instead. -/
theorem C5_get_amended {σ : Type} (B : Backend σ) (s : DDState σ) (k : String) (d : Value) :
    ((syncWith B false s).mirror k = none → (ddGet B s k d).2 = d)
    ∧ (∀ v, (syncWith B false s).mirror k = some v → (ddGet B s k d).2 = v) := by
  constructor
  · intro h
    simp [ddGet, h]
  · intro v h
    simp [ddGet, h]

theorem C5_witness :
    ((syncWith memBackend false
        { backend := { storage := [], lastUpdated := 1 },
          mirror := fun _ => none, lastSynced := 1, autosync := true }).mirror "missing"
      = none)
    ∧ (ddGet memBackend
        { backend := { storage := [], lastUpdated := 1 },
          mirror := fun _ => none, lastSynced := 1, autosync := true }
        "missing" (Value.vstr (String.mk ['d']))).2 = Value.vstr (String.mk ['d']) :=
  ⟨rfl,
   (C5_get_amended memBackend
      { backend := { storage := [], lastUpdated := 1 },
        mirror := fun _ => none, lastSynced := 1, autosync := true }
      "missing" (Value.vstr (String.mk ['d']))).1 rfl⟩

/-- C3: every mutating operation of DurableDict (set, delete, pop,
setdefault) runs a forced full resync before returning: provided the
backend write bumped the durable version above `last_synced` (the
adapter contract of spec section 4.4), the mirror afterwards equals the
backend's `durables()` and `last_synced` equals the new durable version.
Consequently, when the adapter reads back what was written
(`durables()(k) = some v` after `persist k v`), an immediately following
`get` on the same instance returns the just-written value
(read-your-writes), with autosync on or off. -/
theorem C3_read_your_writes {σ : Type} (B : Backend σ) (s : DDState σ)
    (k : String) (v d : Value) (h0 : 0 ≤ s.lastSynced) :
    (B.lastUpdated (B.persist s.backend k v) > s.lastSynced →
      ((ddSetitem B s k v).mirror = B.durables (B.persist s.backend k v)
       ∧ (ddSetitem B s k v).lastSynced = B.lastUpdated (B.persist s.backend k v)
       ∧ (B.durables (B.persist s.backend k v) k = some v →
            (ddGet B (ddSetitem B s k v) k d).2 = v)))
    ∧ (B.lastUpdated (B.depersist s.backend k) > s.lastSynced →
        ((ddDelitem B s k).mirror = B.durables (B.depersist s.backend k)
         ∧ (ddDelitem B s k).lastSynced = B.lastUpdated (B.depersist s.backend k)))
    ∧ (B.lastUpdated (B.popOp s.backend k d).1 > s.lastSynced →
        ((ddPop B s k d).1.mirror = B.durables (B.popOp s.backend k d).1
         ∧ (ddPop B s k d).1.lastSynced = B.lastUpdated (B.popOp s.backend k d).1))
    ∧ (B.lastUpdated (B.setdefaultOp s.backend k d).1 > s.lastSynced →
        ((ddSetdefault B s k d).1.mirror = B.durables (B.setdefaultOp s.backend k d).1
         ∧ (ddSetdefault B s k d).1.lastSynced
             = B.lastUpdated (B.setdefaultOp s.backend k d).1)) := by
  refine ⟨?_, ?_, ?_, ?_⟩
  · intro hver
    have hr := syncWith_force_reload B { s with backend := B.persist s.backend k v }
      (by simpa using h0) (by simpa using hver)
    refine ⟨hr.1, hr.2, ?_⟩
    intro hval
    have hval2 : (ddSetitem B s k v).mirror k = some v := by
      rw [show (ddSetitem B s k v).mirror
          = B.durables (B.persist s.backend k v) from hr.1, hval]
    have h2 : (ddSetitem B s k v).lastSynced
        = B.lastUpdated (B.persist s.backend k v) := hr.2
    have hb : (ddSetitem B s k v).backend = B.persist s.backend k v :=
      syncWith_backend_unchanged B true { s with backend := B.persist s.backend k v }
    have hsynced : syncWith B false (ddSetitem B s k v) = ddSetitem B s k v := by
      apply syncWith_noop_of_synced
      · omega
      · rw [h2, hb]
    show ((syncWith B false (ddSetitem B s k v)).mirror k).getD d = v
    rw [hsynced, hval2]
    rfl
  · intro hver
    exact syncWith_force_reload B { s with backend := B.depersist s.backend k }
      (by simpa using h0) (by simpa using hver)
  · intro hver
    exact syncWith_force_reload B { s with backend := (B.popOp s.backend k d).1 }
      (by simpa using h0) (by simpa using hver)
  · intro hver
    exact syncWith_force_reload B { s with backend := (B.setdefaultOp s.backend k d).1 }
      (by simpa using h0) (by simpa using hver)

theorem C3_witness :
    ((0 : Int) ≤ 1)
    ∧ memBackend.lastUpdated
        (memBackend.persist { storage := [], lastUpdated := 1 } "k" (Value.vint 42)) > 1
    ∧ memBackend.durables
        (memBackend.persist { storage := [], lastUpdated := 1 } "k" (Value.vint 42)) "k"
        = some (Value.vint 42)
    ∧ (ddGet memBackend
        (ddSetitem memBackend
          { backend := { storage := [], lastUpdated := 1 },
            mirror := fun _ => none, lastSynced := 1, autosync := true }
          "k" (Value.vint 42))
        "k" Value.vnone).2 = Value.vint 42 :=
  ⟨by decide, by decide, rfl,
   ((C3_read_your_writes memBackend
      { backend := { storage := [], lastUpdated := 1 },
        mirror := fun _ => none, lastSynced := 1, autosync := true }
      "k" (Value.vint 42) Value.vnone (by decide)).1 (by decide)).2.2 rfl⟩

/-- The public operations of one DurableDict instance, for quantifying
over "every operation" (durabledict/base.py lines 36-87). -/
inductive DDOp : Type where
  | setitemOp : String → Value → DDOp
  | delitemOp : String → DDOp
  | popDOp : String → Value → DDOp
  | setdefaultDOp : String → Value → DDOp
  | getOp : String → Value → DDOp
  | getitemOp : String → DDOp
  | containsOp : String → DDOp
  | lenOp : DDOp
  | syncOp : DDOp

/-- State transition of one DurableDict operation.  Read-only operations
(`get`, `__getitem__`, `__contains__`, `__len__`) perform the
conditional sync; mutating operations and `sync()` perform a forced
sync. -/
def ddStep {σ : Type} (B : Backend σ) (op : DDOp) (s : DDState σ) : DDState σ :=
  match op with
  | .setitemOp k v => ddSetitem B s k v
  | .delitemOp k => ddDelitem B s k
  | .popDOp k d => (ddPop B s k d).1
  | .setdefaultDOp k d => (ddSetdefault B s k d).1
  | .getOp k d => (ddGet B s k d).1
  | .getitemOp k => (ddGetitem B s k).1
  | .containsOp _ => syncWith B false s
  | .lenOp => syncWith B false s
  | .syncOp => ddSync B s

theorem syncWith_lastSynced_mono {σ : Type} (B : Backend σ) (force : Bool)
    (s : DDState σ) (h : 0 ≤ B.lastUpdated s.backend) :
    s.lastSynced ≤ (syncWith B force s).lastSynced := by
  unfold syncWith
  split
  · exact le_refl _
  · dsimp only
    split
    · rename_i htru
      unfold cacheExpired at htru ⊢
      by_cases hcond : s.lastSynced = 0 ∨ B.lastUpdated s.backend > s.lastSynced
      · simp only [if_pos hcond, Option.getD_some]
        omega
      · simp [hcond, optTruthy] at htru
    · exact le_refl _

/-- C8: for an adapter reporting non-negative versions, no DurableDict
operation ever decreases `last_synced`; consequently `last_synced` is
monotone non-decreasing over every sequence of operations on one
instance. -/
theorem C8_last_synced_monotone {σ : Type} (B : Backend σ)
    (hver : ∀ b : σ, 0 ≤ B.lastUpdated b) :
    (∀ (op : DDOp) (s : DDState σ), s.lastSynced ≤ (ddStep B op s).lastSynced)
    ∧ (∀ (ops : List DDOp) (s : DDState σ),
        s.lastSynced ≤ (ops.foldl (fun st op => ddStep B op st) s).lastSynced) := by
  have hstep : ∀ (op : DDOp) (s : DDState σ), s.lastSynced ≤ (ddStep B op s).lastSynced := by
    intro op s
    cases op <;>
      exact syncWith_lastSynced_mono B _ _ (hver _)
  refine ⟨hstep, ?_⟩
  intro ops
  induction ops with
  | nil => intro s; exact le_refl _
  | cons op rest ih =>
      intro s
      exact le_trans (hstep op s) (ih (ddStep B op s))

theorem C8_witness :
    (∀ b : MemState, 0 ≤ memBackend.lastUpdated b)
    ∧ (1 : Int) ≤ (ddStep memBackend (DDOp.setitemOp "k" (Value.vint 5))
        { backend := { storage := [], lastUpdated := 1 },
          mirror := fun _ => none, lastSynced := 1, autosync := true }).lastSynced
    ∧ (1 : Int) ≤ ([DDOp.setitemOp "k" (Value.vint 5), DDOp.popDOp "k" Value.vnone,
        DDOp.getOp "k" Value.vnone].foldl (fun st op => ddStep memBackend op st)
        { backend := { storage := [], lastUpdated := 1 },
          mirror := fun _ => none, lastSynced := 1, autosync := true }).lastSynced :=
  ⟨fun b => Int.natCast_nonneg b.lastUpdated,
   (C8_last_synced_monotone memBackend (fun b => Int.natCast_nonneg b.lastUpdated)).1
      (DDOp.setitemOp "k" (Value.vint 5))
      { backend := { storage := [], lastUpdated := 1 },
        mirror := fun _ => none, lastSynced := 1, autosync := true },
   (C8_last_synced_monotone memBackend (fun b => Int.natCast_nonneg b.lastUpdated)).2
      [DDOp.setitemOp "k" (Value.vint 5), DDOp.popDOp "k" Value.vnone,
        DDOp.getOp "k" Value.vnone]
      { backend := { storage := [], lastUpdated := 1 },
        mirror := fun _ => none, lastSynced := 1, autosync := true }⟩
